import Mathlib

/-!
Verification development for the production medical report parser
(cloud-run-deployment/production_medical_parser.py).  Python strings are
modelled as lists of characters, Python floats as rationals, fallible
Python operations as Option-valued functions, and the three external
effectful steps of the make.com entry point as explicit outcome values.
Each definition mirrors one function of the source file; the theorems
settle the frozen claims about that source.
-/

namespace MedParser

/-- Characters treated as whitespace by Python: the set matched by the
regex whitespace class and stripped by str.strip (ASCII whitespace and
the unicode whitespace code points). -/
def isPySpace (c : Char) : Bool :=
  c = ' ' || c = '\t' || c = '\n' || c = '\r' ||
  c.val = 0x0b || c.val = 0x0c ||
  (0x1c ≤ c.val && c.val ≤ 0x1f) || c.val = 0x85 || c.val = 0xa0 ||
  c.val = 0x1680 || (0x2000 ≤ c.val && c.val ≤ 0x200a) ||
  c.val = 0x2028 || c.val = 0x2029 || c.val = 0x202f || c.val = 0x205f ||
  c.val = 0x3000

/-- Characters removed by the source regex character class x00-x1f, x7f-x9f. -/
def isRemovedCtl (c : Char) : Bool :=
  c.val ≤ 0x1f || (0x7f ≤ c.val && c.val ≤ 0x9f)

/-- Python str.lower restricted to the characters occurring in the parser
data: ASCII letters and the German capital umlauts. -/
def lowerChar (c : Char) : Char :=
  if c = 'Ä' then 'ä' else if c = 'Ö' then 'ö' else if c = 'Ü' then 'ü'
  else c.toLower

def lowerStr (l : List Char) : List Char := l.map lowerChar

def dropTrailingWs (l : List Char) : List Char :=
  (l.reverse.dropWhile isPySpace).reverse

/-- Python str.strip with no arguments. -/
def stripPy (l : List Char) : List Char := dropTrailingWs (l.dropWhile isPySpace)

/-- Worker for the whitespace-run collapse performed by the source regex
substitution that maps every maximal whitespace run to one space; the
Boolean records whether the previous character was inside a run. -/
def collapseAux : Bool → List Char → List Char
  | _, [] => []
  | inRun, c :: t =>
    if isPySpace c then
      if inRun then collapseAux true t else ' ' :: collapseAux true t
    else c :: collapseAux false t

def collapseWs (l : List Char) : List Char := collapseAux false l

/-- Removal of the control characters x00-x1f and x7f-x9f. -/
def removeCtl (l : List Char) : List Char := l.filter (fun c => !isRemovedCtl c)

/-- Python substring containment (the in operator on str). -/
def strContains (hay needle : List Char) : Bool :=
  match hay with
  | [] => needle.isEmpty
  | _ :: t => needle.isPrefixOf hay || strContains t needle

/-- The eight marker categories of the MarkerCategory enum. -/
inductive MarkerCategory
  | HEMATOLOGY
  | CLINICAL_CHEMISTRY
  | HORMONES
  | CLINICAL_IMMUNOLOGY
  | METALS_TRACE_ELEMENTS
  | MICRONUTRIENTS
  | FATTY_ACIDS
  | QUOTIENTS
deriving DecidableEq

/-- The BloodMarker dataclass after construction.  The confidence and
additional-notes fields of the source are never read by any claim and
always keep their defaults, so they are omitted here. -/
structure BloodMarker where
  test : List Char
  result : List Char
  unit : List Char
  refRange : List Char
  category : MarkerCategory
  isCritical : Bool
deriving DecidableEq

/-- BloodMarker normalize-text: strip, collapse whitespace runs, then drop
control characters (with the early return on an empty input). -/
def normalizeText (t : List Char) : List Char :=
  if t = [] then [] else removeCtl (collapseWs (stripPy t))

/-- BloodMarker normalize-value: strip, then replace commas by dots. -/
def normalizeValue (v : List Char) : List Char :=
  if v = [] then [] else (stripPy v).map (fun c => if c = ',' then '.' else c)

/-- The fixed unit normalization table of BloodMarker. -/
def unitMap : List (List Char × List Char) :=
  [("mg/dl".toList, "mg/dL".toList), ("ug/l".toList, "µg/L".toList),
   ("ng/ml".toList, "ng/mL".toList), ("pg/ml".toList, "pg/mL".toList),
   ("mmol/l".toList, "mmol/L".toList), ("umol/l".toList, "µmol/L".toList)]

def lookupPairs (k : List Char) : List (List Char × List Char) → Option (List Char)
  | [] => none
  | (k0, v0) :: t => if k0 = k then some v0 else lookupPairs k t

/-- BloodMarker normalize-unit: strip, then look the lowercased unit up in
the fixed table, defaulting to the stripped unit itself. -/
def normalizeUnit (u : List Char) : List Char :=
  if u = [] then []
  else
    let s := stripPy u
    (lookupPairs (lowerStr s) unitMap).getD s

/-- BloodMarker construction.  The source raises ValidationError exactly
when the raw test or the raw result is empty (the check precedes the
normalization); a raised ValidationError is modelled as none. -/
def mkBloodMarker (test result unit refRange : List Char)
    (category : MarkerCategory) (isCritical : Bool) : Option BloodMarker :=
  if test = [] || result = [] then none
  else some { test := normalizeText test, result := normalizeValue result,
              unit := normalizeUnit unit, refRange := refRange,
              category := category, isCritical := isCritical }

/-- Iteration order of the category-pattern dictionary, which is its
insertion order in the source. -/
def categoryOrder : List MarkerCategory :=
  [.HEMATOLOGY, .CLINICAL_CHEMISTRY, .HORMONES, .CLINICAL_IMMUNOLOGY,
   .METALS_TRACE_ELEMENTS, .MICRONUTRIENTS, .FATTY_ACIDS, .QUOTIENTS]

/-- The keyword lists of the category-pattern table. -/
def categoryKeywords : MarkerCategory → List (List Char)
  | .HEMATOLOGY =>
      ["leukoz".toList, "erythroz".toList, "hämoglobin".toList,
       "hämatokrit".toList, "mcv".toList, "mch".toList, "mchc".toList,
       "thromboz".toList, "rdw".toList, "neutrophil".toList,
       "lymphoz".toList, "monoz".toList, "eosinophil".toList,
       "basophil".toList, "hematocrit".toList, "platelets".toList]
  | .CLINICAL_CHEMISTRY =>
      ["ferritin".toList, "gesamteiweiß".toList, "calcium".toList,
       "protein".toList, "albumin".toList, "glucose".toList,
       "creatinine".toList, "urea".toList, "bilirubin".toList,
       "ast".toList, "alt".toList]
  | .HORMONES =>
      ["t3".toList, "t4".toList, "tsh".toList, "freies".toList,
       "hormone".toList, "cortisol".toList, "testosterone".toList,
       "estradiol".toList, "insulin".toList, "dhea".toList]
  | .CLINICAL_IMMUNOLOGY =>
      ["crp".toList, "immunoglobulin".toList, "igg".toList, "iga".toList,
       "igm".toList, "ige".toList, "interleukin".toList,
       "complement".toList, "antibody".toList]
  | .METALS_TRACE_ELEMENTS =>
      ["magnesium".toList, "selen".toList, "zink".toList, "kupfer".toList,
       "chrom".toList, "blei".toList, "cadmium".toList, "nickel".toList,
       "quecksilber".toList, "kalium".toList, "natrium".toList,
       "phosphor".toList, "mangan".toList, "molybdän".toList,
       "iron".toList, "copper".toList, "zinc".toList]
  | .MICRONUTRIENTS =>
      ["vitamin".toList, "folsäure".toList, "cobalamin".toList,
       "holotrans".toList, "biotin".toList, "niacin".toList,
       "riboflavin".toList, "thiamin".toList, "folic acid".toList,
       "b12".toList]
  | .FATTY_ACIDS =>
      ["linol".toList, "omega".toList, "epa".toList, "dha".toList,
       "arachidon".toList, "fettsäuren".toList, "palmitin".toList,
       "stearin".toList, "fatty acid".toList, "lipid".toList]
  | .QUOTIENTS =>
      ["index".toList, "verhältnis".toList, "quotient".toList,
       "ratio".toList, "aa/epa".toList, "omega-6/omega-3".toList,
       "ldl/hdl".toList]

/-- The per-category regexes of the source are case-insensitive
alternations of literals (the class ig[agme] expands to four literals), so
a search succeeds exactly when some alternative occurs in the lowercased
name; these are those literal alternatives. -/
def categoryRegexAlternatives : MarkerCategory → List (List Char)
  | .HEMATOLOGY =>
      ["leuko".toList, "erythro".toList, "hb".toList, "hct".toList,
       "mcv".toList, "mch".toList, "mchc".toList, "plt".toList,
       "rdw".toList]
  | .CLINICAL_CHEMISTRY =>
      ["ferritin".toList, "protein".toList, "calcium".toList,
       "glucose".toList, "creatinin".toList, "urea".toList]
  | .HORMONES =>
      ["t3".toList, "t4".toList, "tsh".toList, "ft3".toList,
       "ft4".toList, "cortisol".toList, "testosteron".toList]
  | .CLINICAL_IMMUNOLOGY =>
      ["crp".toList, "iga".toList, "igg".toList, "igm".toList,
       "ige".toList, "interleukin".toList, "complement".toList]
  | .METALS_TRACE_ELEMENTS =>
      ["mg".toList, "se".toList, "zn".toList, "cu".toList, "cr".toList,
       "pb".toList, "cd".toList, "ni".toList, "hg".toList, "k".toList,
       "na".toList, "p".toList, "mn".toList, "mo".toList, "fe".toList]
  | .MICRONUTRIENTS =>
      ["vitamin".toList, "vit".toList, "folsäure".toList,
       "folate".toList, "b12".toList, "cobalamin".toList]
  | .FATTY_ACIDS =>
      ["omega".toList, "epa".toList, "dha".toList, "linol".toList,
       "arachidon".toList, "fatty".toList, "lipid".toList]
  | .QUOTIENTS =>
      ["index".toList, "ratio".toList, "quotient".toList,
       "verhältnis".toList, "/".toList]

/-- One category of the classifier loop hits when a keyword occurs in the
lowercased name or the category regex finds a match in the name. -/
def matchesCategory (name : List Char) (c : MarkerCategory) : Bool :=
  ((categoryKeywords c).any (fun k => strContains (lowerStr name) k)) ||
  ((categoryRegexAlternatives c).any (fun a => strContains (lowerStr name) a))

/-- The classifier loop body: first category with a hit wins, with the
clinical-chemistry default after the loop. -/
def classifyGo (name : List Char) : List MarkerCategory → MarkerCategory
  | [] => .CLINICAL_CHEMISTRY
  | c :: rest => if matchesCategory name c then c else classifyGo name rest

def classifyMarker (name : List Char) : MarkerCategory :=
  classifyGo name categoryOrder

/-- The five fatty-acid subcategory lists. -/
inductive FattySub
  | omega3 | omega6 | mono | transFat | saturatedFat
deriving DecidableEq

def hitsAny (low : List Char) (kws : List (List Char)) : Bool :=
  kws.any (fun k => strContains low k)

/-- Fatty-acid subclassifier with its keyword lists and the omega-3
default. -/
def classifyFattyAcid (name : List Char) : FattySub :=
  let low := lowerStr name
  if hitsAny low
      ["alpha-linolen".toList, "epa".toList, "dha".toList,
       "docosapentaen-n3".toList, "omega-3".toList, "omega 3".toList] then
    .omega3
  else if hitsAny low
      ["gamma-linolen".toList, "dihomo".toList, "linol".toList,
       "arachidon".toList, "docosatetraen".toList,
       "docosapentaen-n6".toList, "omega-6".toList, "omega 6".toList] then
    .omega6
  else if hitsAny low
      ["olein".toList, "palmitolein".toList, "gondo".toList,
       "nervon".toList, "einfach ungesättigt".toList] then
    .mono
  else if hitsAny low ["trans".toList, "elaidin".toList] then
    .transFat
  else if hitsAny low
      ["myristin".toList, "palmitin".toList, "stearin".toList,
       "arachin".toList, "behen".toList, "lignocerin".toList,
       "gesättigt".toList, "saturated".toList] then
    .saturatedFat
  else
    .omega3

/-- The fixed critical-value pattern list; each source regex is either a
literal (case-insensitive, hence a containment test on the lowercased
string), a pair of literal alternatives, or one-or-more asterisks, which
matches exactly when an asterisk occurs. -/
def criticalPatternChecks : List (List Char → Bool) :=
  [fun s => s.any (fun c => c = '*'),
   fun s => strContains (lowerStr s) ("kritisch".toList),
   fun s => strContains (lowerStr s) ("critical".toList),
   fun s => strContains (lowerStr s) ("alarm".toList),
   fun s => strContains s ("↑↑".toList),
   fun s => strContains s ("↓↓".toList),
   fun s => strContains (lowerStr s) ("sehr hoch".toList) ||
            strContains (lowerStr s) ("sehr niedrig".toList),
   fun s => strContains (lowerStr s) ("very high".toList) ||
            strContains (lowerStr s) ("very low".toList)]

/-- Criticality check of the source: an empty reference range returns
false at once; otherwise each pattern is searched in the reference and in
the result. -/
def isCriticalValue (result reference : List Char) : Bool :=
  if reference = [] then false
  else criticalPatternChecks.any (fun p => p reference || p result)

/-- The dictionary built for each marker before routing; the critical key
is present exactly for critical markers, modelled as a Boolean field
(dictionary equality in the source compares that key as well). -/
structure MarkerDict where
  test : List Char
  result : List Char
  unit : List Char
  refRange : List Char
  critical : Bool
deriving DecidableEq

def markerToDict (m : BloodMarker) : MarkerDict :=
  { test := m.test, result := m.result, unit := m.unit,
    refRange := m.refRange, critical := m.isCritical }

/-- The extraction-stats substructure of the result dictionary.  The
confidence float is modelled as a rational. -/
structure ExtractionStats where
  totalMarkersFound : Nat
  markersWithReference : Nat
  markersWithoutReference : Nat
  criticalValues : List (List Char)
  extractionConfidence : ℚ
  validationStatus : List Char
deriving DecidableEq

/-- The five fatty-acid sublists of the result dictionary. -/
structure FattyAcidLists where
  omega3 : List MarkerDict
  omega6 : List MarkerDict
  mono : List MarkerDict
  transFat : List MarkerDict
  saturatedFat : List MarkerDict
deriving DecidableEq

/-- The result dictionary produced by the robust-extraction routine.
Header and patient-info are fixed-key string maps, modelled as
association lists. -/
structure PipelineResult where
  header : List (List Char × List Char)
  patientInfo : List (List Char × List Char)
  hematology : List MarkerDict
  clinicalChemistry : List MarkerDict
  hormones : List MarkerDict
  clinicalImmunology : List MarkerDict
  metalsTraceElements : List MarkerDict
  micronutrients : List MarkerDict
  fattyAcids : FattyAcidLists
  quotients : List MarkerDict
  extractionStats : ExtractionStats
deriving DecidableEq

/-- The initial result structure. -/
def initializeResultStructure : PipelineResult :=
  { header :=
      [("medical_director".toList, []), ("scientists".toList, []),
       ("address".toList, []), ("contact".toList, []),
       ("insurance".toList, []), ("collection_date".toList, []),
       ("collection_time".toList, [])],
    patientInfo :=
      [("name".toList, []), ("diary_number".toList, []),
       ("birth_date_gender".toList, []), ("entry_date".toList, []),
       ("exit_date".toList, [])],
    hematology := [], clinicalChemistry := [], hormones := [],
    clinicalImmunology := [], metalsTraceElements := [],
    micronutrients := [],
    fattyAcids := { omega3 := [], omega6 := [], mono := [],
                    transFat := [], saturatedFat := [] },
    quotients := [],
    extractionStats :=
      { totalMarkersFound := 0, markersWithReference := 0,
        markersWithoutReference := 0, criticalValues := [],
        extractionConfidence := 0, validationStatus := "pending".toList } }

/-- Duplicate guard used when routing: append unless a marker with the
identical test string is already in the list. -/
def appendIfNewTest (d : MarkerDict) (l : List MarkerDict) : List MarkerDict :=
  if l.any (fun x => x.test == d.test) then l else l ++ [d]

def updateFA (sub : FattySub) (d : MarkerDict) (fa : FattyAcidLists) :
    FattyAcidLists :=
  match sub with
  | .omega3 => { fa with omega3 := appendIfNewTest d fa.omega3 }
  | .omega6 => { fa with omega6 := appendIfNewTest d fa.omega6 }
  | .mono => { fa with mono := appendIfNewTest d fa.mono }
  | .transFat => { fa with transFat := appendIfNewTest d fa.transFat }
  | .saturatedFat => { fa with saturatedFat := appendIfNewTest d fa.saturatedFat }

/-- Category routing of add-marker-to-result; the fatty-acid case goes
through the subclassifier. -/
def routeMarker (m : BloodMarker) (d : MarkerDict) (r : PipelineResult) :
    PipelineResult :=
  match m.category with
  | .FATTY_ACIDS =>
      { r with fattyAcids := updateFA (classifyFattyAcid m.test) d r.fattyAcids }
  | .HEMATOLOGY => { r with hematology := appendIfNewTest d r.hematology }
  | .CLINICAL_CHEMISTRY =>
      { r with clinicalChemistry := appendIfNewTest d r.clinicalChemistry }
  | .HORMONES => { r with hormones := appendIfNewTest d r.hormones }
  | .CLINICAL_IMMUNOLOGY =>
      { r with clinicalImmunology := appendIfNewTest d r.clinicalImmunology }
  | .METALS_TRACE_ELEMENTS =>
      { r with metalsTraceElements := appendIfNewTest d r.metalsTraceElements }
  | .MICRONUTRIENTS =>
      { r with micronutrients := appendIfNewTest d r.micronutrients }
  | .QUOTIENTS => { r with quotients := appendIfNewTest d r.quotients }

/-- The add-marker-to-result routine: the critical-values append happens
before routing and does not depend on the duplicate guard, and the total
counter is incremented unconditionally at the end. -/
def addMarkerToResult (m : BloodMarker) (r : PipelineResult) : PipelineResult :=
  let d := markerToDict m
  let st := r.extractionStats
  let r1 :=
    if m.isCritical then
      { r with extractionStats := { st with criticalValues := st.criticalValues ++ [m.test] } }
    else r
  let r2 := routeMarker m d r1
  let st2 := r2.extractionStats
  { r2 with extractionStats := { st2 with totalMarkersFound := st2.totalMarkersFound + 1 } }

/-- Number of markers actually stored in the twelve lists of a result. -/
def storedMarkerCount (r : PipelineResult) : Nat :=
  r.hematology.length + r.clinicalChemistry.length + r.hormones.length +
  r.clinicalImmunology.length + r.metalsTraceElements.length +
  r.micronutrients.length + r.quotients.length +
  r.fattyAcids.omega3.length + r.fattyAcids.omega6.length +
  r.fattyAcids.mono.length + r.fattyAcids.transFat.length +
  r.fattyAcids.saturatedFat.length

/-- Completeness score of a marker dictionary: a present non-empty result
counts two, the other three fields one each. -/
def markerCompleteness (m : MarkerDict) : Nat :=
  (if m.test ≠ [] then 1 else 0) + (if m.result ≠ [] then 2 else 0) +
  (if m.unit ≠ [] then 1 else 0) + (if m.refRange ≠ [] then 1 else 0)

/-- Grouping key of the duplicate remover: the lowercased test name. -/
def mkey (m : MarkerDict) : List Char := lowerStr m.test

def assocFind (k : List Char) : List (List Char × MarkerDict) → Option MarkerDict
  | [] => none
  | (k0, v0) :: t => if k0 = k then some v0 else assocFind k t

def assocUpdate (k : List Char) (v : MarkerDict) :
    List (List Char × MarkerDict) → List (List Char × MarkerDict)
  | [] => [(k, v)]
  | (k0, v0) :: t =>
      if k0 = k then (k0, v) :: t else (k0, v0) :: assocUpdate k v t

/-- In-place replacement of the first occurrence of a value, mirroring
the list-index lookup followed by assignment in the source. -/
def replaceFirstEq (old new : MarkerDict) : List MarkerDict → List MarkerDict
  | [] => []
  | y :: t => if y = old then new :: t else y :: replaceFirstEq old new t

/-- The duplicate-removal loop over one category list: the seen map sends
each lowercased test name to the marker currently kept for it, and a
strictly more complete later duplicate overwrites the kept one at its
original position.  The guard of the source discarding non-dictionary
entries is vacuous here, since every modelled marker is a dictionary. -/
def dedupeGo : List MarkerDict → List (List Char × MarkerDict) →
    List MarkerDict → List MarkerDict
  | [], _, uniq => uniq
  | m :: rest, seen, uniq =>
      let k := mkey m
      match assocFind k seen with
      | none => dedupeGo rest (seen ++ [(k, m)]) (uniq ++ [m])
      | some existing =>
          if markerCompleteness existing < markerCompleteness m then
            dedupeGo rest (assocUpdate k m seen) (replaceFirstEq existing m uniq)
          else dedupeGo rest seen uniq

def dedupeList (l : List MarkerDict) : List MarkerDict := dedupeGo l [] []

/-- Duplicate removal over the seven plain category lists; the source
loop does not visit the fatty-acid sublists. -/
def removeDuplicates (r : PipelineResult) : PipelineResult :=
  { r with
      hematology := dedupeList r.hematology,
      clinicalChemistry := dedupeList r.clinicalChemistry,
      hormones := dedupeList r.hormones,
      clinicalImmunology := dedupeList r.clinicalImmunology,
      metalsTraceElements := dedupeList r.metalsTraceElements,
      micronutrients := dedupeList r.micronutrients,
      quotients := dedupeList r.quotients }

/-- Lexicographic comparison of test names by code point, the order the
source sort key induces; strictness makes the insertion sort stable. -/
def strLt : List Char → List Char → Bool
  | [], [] => false
  | [], _ :: _ => true
  | _ :: _, [] => false
  | a :: x, b :: y => if a = b then strLt x y else decide (a < b)

def insertByTest (d : MarkerDict) : List MarkerDict → List MarkerDict
  | [] => [d]
  | y :: t => if strLt y.test d.test then y :: insertByTest d t else d :: y :: t

/-- Stable sort of one category list by test name, modelling the Python
stable in-place sort. -/
def sortByTest : List MarkerDict → List MarkerDict
  | [] => []
  | d :: t => insertByTest d (sortByTest t)

def sortMarkers (r : PipelineResult) : PipelineResult :=
  { r with
      hematology := sortByTest r.hematology,
      clinicalChemistry := sortByTest r.clinicalChemistry,
      hormones := sortByTest r.hormones,
      clinicalImmunology := sortByTest r.clinicalImmunology,
      metalsTraceElements := sortByTest r.metalsTraceElements,
      micronutrients := sortByTest r.micronutrients,
      quotients := sortByTest r.quotients,
      fattyAcids :=
        { omega3 := sortByTest r.fattyAcids.omega3,
          omega6 := sortByTest r.fattyAcids.omega6,
          mono := sortByTest r.fattyAcids.mono,
          transFat := sortByTest r.fattyAcids.transFat,
          saturatedFat := sortByTest r.fattyAcids.saturatedFat } }

/-- Round-half-to-even on rationals, the rounding of the Python built-in
round. -/
def roundHalfEven (q : ℚ) : ℤ :=
  let f := ⌊q⌋
  let frac := q - (f : ℚ)
  if frac < 1 / 2 then f
  else if 1 / 2 < frac then f + 1
  else if Even f then f else f + 1

def roundTwoPlaces (q : ℚ) : ℚ := ((roundHalfEven (q * 100) : ℚ)) / 100

/-- Confidence computation: the with-reference counter is read from the
stats as they stand at this point of the post-processing pass. -/
def calculateConfidence (r : PipelineResult) : PipelineResult :=
  let total := r.extractionStats.totalMarkersFound
  let withRef := r.extractionStats.markersWithReference
  let st := r.extractionStats
  if 0 < total then
    { r with extractionStats := { st with extractionConfidence := roundTwoPlaces ((withRef : ℚ) / (total : ℚ) * 100) } }
  else
    { r with extractionStats := { st with extractionConfidence := 0 } }

/-- First-occurrence deduplication of a list of strings, modelling the
set built while collecting extracted test names. -/
def dedupStrs : List (List Char) → List (List Char)
  | [] => []
  | s :: t => s :: (dedupStrs t).filter (fun x => x ≠ s)

/-- The lowercased test names collected across every category list and
fatty-acid sublist, skipping entries with an empty test. -/
def collectTestNames (r : PipelineResult) : List (List Char) :=
  let pick := fun (l : List MarkerDict) =>
    (l.filter (fun m => m.test ≠ [])).map (fun m => lowerStr m.test)
  pick r.hematology ++ pick r.clinicalChemistry ++ pick r.hormones ++
  pick r.clinicalImmunology ++ pick r.metalsTraceElements ++
  pick r.micronutrients ++ pick r.quotients ++
  pick r.fattyAcids.omega3 ++ pick r.fattyAcids.omega6 ++
  pick r.fattyAcids.mono ++ pick r.fattyAcids.transFat ++
  pick r.fattyAcids.saturatedFat

/-- Validation against the reference catalog, given the catalog key set.
An empty catalog makes the whole step return unchanged (the early
return of the source), leaving counters and status as they were. -/
def validateAgainstReference (catalog : List (List Char))
    (r : PipelineResult) : PipelineResult :=
  if catalog = [] then r
  else
    let allNames := dedupStrs (collectTestNames r)
    let foundRef := (allNames.filter (fun n => catalog.contains n)).length
    let notRef := (allNames.filter (fun n => !catalog.contains n)).length
    let stats := r.extractionStats
    let status :=
      if stats.totalMarkersFound < 5 then "warning: low marker count".toList
      else if stats.extractionConfidence < 50 then
        "warning: low confidence".toList
      else "success".toList
    { r with extractionStats :=
        { stats with markersWithReference := foundRef,
                     markersWithoutReference := notRef,
                     validationStatus := status } }

/-- The post-processing pass in source order: duplicate removal, sort,
confidence, reference validation.  None of the modelled steps can raise,
so the per-step exception guards of the source are inert here. -/
def safePostProcessing (catalog : List (List Char)) (r : PipelineResult) :
    PipelineResult :=
  validateAgainstReference catalog
    (calculateConfidence (sortMarkers (removeDuplicates r)))

/-- One text segment of a text anchor; absent indices are modelled as
none and default to zero and to the text length respectively. -/
structure PySegment where
  startIndex : Option Int
  endIndex : Option Int
deriving DecidableEq

/-- The shapes a text anchor can take at the call sites of the source:
the value None, a plain string, or an object probed for a content
attribute and a text-segments attribute. -/
inductive PyTextAnchor
  | pyNone
  | pyStr (s : List Char)
  | obj (content : Option (List Char)) (segments : Option (List PySegment))

/-- Python slicing with already-clamped nonnegative bounds. -/
def pySlice (l : List Char) (a b : Nat) : List Char := (l.take b).drop a

/-- The artifact cleanup applied to the joined segment text: strip, then
collapse whitespace runs, then drop control characters. -/
def normalizeArtifacts (l : List Char) : List Char :=
  removeCtl (collapseWs (stripPy l))

/-- One segment resolved against the full text, with the boundary clamps
of the source; an inverted or empty clamped span yields nothing. -/
def segmentSlice (fullText : List Char) (seg : PySegment) : List Char :=
  let n : Int := (fullText.length : Int)
  let st := seg.startIndex.getD 0
  let en := seg.endIndex.getD n
  let st2 := max 0 (min st n)
  let en2 := max st2 (min en n)
  if st2 < en2 then pySlice fullText st2.toNat en2.toNat else []

/-- The non-empty slices of all segments in order. -/
def segmentParts (fullText : List Char) (segs : List PySegment) :
    List (List Char) :=
  segs.foldl (fun acc seg =>
    let sl := segmentSlice fullText seg
    if sl ≠ [] then acc ++ [sl] else acc) []

/-- The safe text-anchor extraction: a falsy anchor yields the empty
string, a string anchor is stripped, an object anchor prefers a truthy
content attribute and otherwise joins and cleans its segment slices. -/
def safeTextAnchorExtraction (anchor : PyTextAnchor) (fullText : List Char) :
    List Char :=
  match anchor with
  | .pyNone => []
  | .pyStr s => stripPy s
  | .obj content segments =>
    let fromSegs :=
      match segments with
      | none => []
      | some segs =>
        if segs = [] then []
        else
          let parts := segmentParts fullText segs
          if parts ≠ [] then normalizeArtifacts parts.flatten else []
    match content with
    | some c => if c ≠ [] then stripPy c else fromSegs
    | none => fromSegs

/-- The letter class of the source regexes: ASCII letters and the German
extra letters. -/
def isLetterEx (c : Char) : Bool :=
  (('a' ≤ c && c ≤ 'z') || ('A' ≤ c && c ≤ 'Z')) ||
  c = 'ä' || c = 'ö' || c = 'ü' || c = 'ß' || c = 'Ä' || c = 'Ö' || c = 'Ü'

/-- The test-name class of the three fallback patterns: letters,
whitespace, hyphen and parentheses. -/
def isClass1 (c : Char) : Bool :=
  isLetterEx c || isPySpace c || c = '-' || c = '(' || c = ')'

/-- The measured-value class: digits, separators and comparison signs. -/
def isValueClass (c : Char) : Bool :=
  c.isDigit || c = '.' || c = ',' || c = '<' || c = '>' ||
  c = '≤' || c = '≥' || c = '±'

/-- The unit class: ASCII letters, micro sign, slash and percent. -/
def isUnitClass (c : Char) : Bool :=
  ('a' ≤ c && c ≤ 'z') || ('A' ≤ c && c ≤ 'Z') ||
  c = 'µ' || c = '/' || c = '%'

/-- The reference-range class of the first fallback pattern. -/
def isRefClass (c : Char) : Bool :=
  c.isDigit || c = '.' || c = ',' || c = '-' || isPySpace c ||
  c = '<' || c = '>' || c = '≤' || c = '≥' || c = '±' || c = '%'

/-- Captured groups of one fallback-pattern match. -/
structure PatGroups where
  g1 : List Char
  g2 : List Char
  g3 : List Char
  g4 : Option (List Char)
deriving DecidableEq

def takeRun (p : Char → Bool) (l : List Char) : List Char × List Char :=
  (l.takeWhile p, l.dropWhile p)

/-- The shared middle of the three patterns: one-or-more separators, the
value group, separators again, then the unit group.  The character
classes of adjacent pieces are disjoint, so greedy maximal-munch is the
exact regex semantics, and the optional second unit alternative of the
source can never participate because the slash already belongs to the
unit class. -/
def matchNumUnit (sep : Char → Bool) (t : List Char) :
    Option ((List Char × List Char) × (Nat × List Char)) :=
  let (w1, t1) := takeRun sep t
  if w1 = [] then none else
  let (d, t2) := takeRun isValueClass t1
  if d = [] then none else
  let (w2, t3) := takeRun sep t2
  if w2 = [] then none else
  let (u, t4) := takeRun isUnitClass t3
  if u = [] then none else
  some ((d, u), (w1.length + d.length + w2.length + u.length, t4))

/-- The optional reference suffix of the first pattern: whitespace, an
optional opening parenthesis, an optional reference group and an
optional closing parenthesis, all greedy; an empty group captures
nothing. -/
def matchOptRef (t : List Char) : Option (List Char) × Nat :=
  let (w3, t5) := takeRun isPySpace t
  let consumeOpen :=
    match t5 with
    | c :: rest => if c = '(' then (1, rest) else (0, t5)
    | [] => (0, ([] : List Char))
  let (openLen, t6) := consumeOpen
  let (ref, t7) := takeRun isRefClass t6
  let closeLen :=
    match t7 with
    | c :: _ => if c = ')' then 1 else 0
    | [] => 0
  (if ref = [] then none else some ref,
   w3.length + openLen + ref.length + closeLen)

/-- First fallback pattern at a line start.  The lazily matched name
group ranges over prefixes of the maximal name-class run, shortest
successful prefix first, exactly the regex backtracking order. -/
def pattern1MatchAt (s : List Char) : Option (PatGroups × Nat) :=
  let run := s.takeWhile isClass1
  (List.range' 1 run.length).findSome? (fun k =>
    match matchNumUnit isPySpace (s.drop k) with
    | none => none
    | some ((d, u), (len1, t4)) =>
        let (ref, len2) := matchOptRef t4
        some ({ g1 := s.take k, g2 := d, g3 := u, g4 := ref }, k + len1 + len2))

/-- Second fallback pattern at a line start: the colon does not belong to
the name class, so the lazily matched name is exactly the maximal
name-class run and must be followed by a colon. -/
def pattern2MatchAt (s : List Char) : Option (PatGroups × Nat) :=
  let run := s.takeWhile isClass1
  if run = [] then none
  else
    match s.drop run.length with
    | c :: rest =>
        if c = ':' then
          match matchNumUnit isPySpace rest with
          | none => none
          | some ((d, u), (len1, _)) =>
              some ({ g1 := run, g2 := d, g3 := u, g4 := none },
                    run.length + 1 + len1)
        else none
    | [] => none

/-- Third fallback pattern at a line start, with tabs as separators. -/
def pattern3MatchAt (s : List Char) : Option (PatGroups × Nat) :=
  let run := s.takeWhile isClass1
  (List.range' 1 run.length).findSome? (fun k =>
    match matchNumUnit (fun c => c = '\t') (s.drop k) with
    | none => none
    | some ((d, u), (len1, _)) =>
        some ({ g1 := s.take k, g2 := d, g3 := u, g4 := none }, k + len1))

/-- Positions where the multiline start anchor matches: offset zero and
the position after every newline. -/
def lineStartPositions (text : List Char) : List Nat :=
  0 :: (List.range text.length).filterMap (fun i =>
    if text.get? i = some '\n' then some (i + 1) else none)

/-- Non-overlapping left-to-right match collection of one pattern, the
finditer semantics restricted to the start-anchored positions. -/
def collectMatches (matcher : List Char → Option (PatGroups × Nat))
    (text : List Char) : List PatGroups :=
  ((lineStartPositions text).foldl (fun st p =>
      let (acc, nxt) := st
      if p < nxt then st
      else
        match matcher (text.drop p) with
        | some (g, len) => (acc ++ [g], p + len)
        | none => st) (([] : List PatGroups), 0)).1

/-- The medical-term whitelist of the valid-test-name check. -/
def medicalKeywords : List (List Char) :=
  ["vitamin".toList, "ferritin".toList, "calcium".toList,
   "magnesium".toList, "zink".toList, "selen".toList, "leukoz".toList,
   "erythroz".toList, "hämoglobin".toList, "hämatokrit".toList,
   "thromboz".toList, "crp".toList, "tsh".toList, "linol".toList,
   "omega".toList, "epa".toList, "dha".toList]

/-- The non-medical blacklist of the valid-test-name check. -/
def excludeKeywords : List (List Char) :=
  ["straße".toList, "telefon".toList, "email".toList, "datum".toList,
   "seite".toList, "eingang".toList, "ausgang".toList]

/-- Test-name validity for the pattern fallback: a letter and length at
least three are required, a whitelist hit accepts, a blacklist hit
rejects, anything else is accepted. -/
def isValidTestName (name : List Char) : Bool :=
  if !(name.any isLetterEx) || name.length < 3 then false
  else if medicalKeywords.any (fun k => strContains (lowerStr name) k) then true
  else if excludeKeywords.any (fun k => strContains (lowerStr name) k) then false
  else true

/-- Processing of one pattern match: names already extracted in this pass
and invalid names are skipped, a failed marker construction is swallowed,
and a built marker is added to the result with the match-group fields and
default criticality. -/
def patternStep (st : List (List Char) × PipelineResult) (g : PatGroups) :
    List (List Char) × PipelineResult :=
  let (seenNames, r) := st
  let name := stripPy g.g1
  if seenNames.contains name then st
  else if !isValidTestName name then st
  else
    let refv :=
      match g.g4 with
      | some rr => stripPy rr
      | none => []
    match mkBloodMarker name (stripPy g.g2) (stripPy g.g3) refv
        (classifyMarker name) false with
    | none => st
    | some m => (seenNames ++ [name], addMarkerToResult m r)

/-- The pattern-based fallback extraction: the three patterns run in
order over the document text, sharing one set of already-extracted
names; an empty text returns the result unchanged. -/
def patternExtractionFallback (text : List Char) (r : PipelineResult) :
    PipelineResult :=
  if text = [] then r
  else
    let ms := collectMatches pattern1MatchAt text ++
      collectMatches pattern2MatchAt text ++
      collectMatches pattern3MatchAt text
    (ms.foldl patternStep (([] : List (List Char)), r)).2

/-- Outcome of one fallible Python step: a normal return or a raised
exception with its message. -/
inductive PyOutcome (α : Type) where
  | ok : α → PyOutcome α
  | exn : List Char → PyOutcome α

/-- The response dictionary of the make.com entry point. -/
structure MakecomResponse where
  status : List Char
  message : List Char
  payload : Option PipelineResult
deriving DecidableEq

def errorResponse (msg : List Char) : MakecomResponse :=
  { status := "error".toList, message := msg, payload := none }

/-- The make.com entry point over the outcomes of its three guarded
steps (base64 decode, parser construction, document processing).  Every
step is wrapped in its own handler in the source, so each exceptional
outcome is converted into an error response and the function itself
never propagates an exception; totality of this definition is that
fact. -/
def processForMakecom (decodeStep : PyOutcome (List Nat))
    (initStep : PyOutcome Unit) (processStep : PyOutcome PipelineResult) :
    MakecomResponse :=
  match decodeStep with
  | .exn e => errorResponse ("Invalid base64 PDF data: ".toList ++ e)
  | .ok _ =>
    match initStep with
    | .exn e => errorResponse ("Parser initialization failed: ".toList ++ e)
    | .ok _ =>
      match processStep with
      | .exn e => errorResponse ("Document processing failed: ".toList ++ e)
      | .ok r =>
          { status := "success".toList,
            message := "Document processed successfully".toList,
            payload := some r }

/-- Membership list selected for a marker: the category list it is routed
to, going through the fatty-acid subclassifier for that category. -/
def faSubList (sub : FattySub) (fa : FattyAcidLists) : List MarkerDict :=
  match sub with
  | .omega3 => fa.omega3
  | .omega6 => fa.omega6
  | .mono => fa.mono
  | .transFat => fa.transFat
  | .saturatedFat => fa.saturatedFat

def targetList (m : BloodMarker) (r : PipelineResult) : List MarkerDict :=
  match m.category with
  | .FATTY_ACIDS => faSubList (classifyFattyAcid m.test) r.fattyAcids
  | .HEMATOLOGY => r.hematology
  | .CLINICAL_CHEMISTRY => r.clinicalChemistry
  | .HORMONES => r.hormones
  | .CLINICAL_IMMUNOLOGY => r.clinicalImmunology
  | .METALS_TRACE_ELEMENTS => r.metalsTraceElements
  | .MICRONUTRIENTS => r.micronutrients
  | .QUOTIENTS => r.quotients

/-- No two markers of the list carry the identical test string. -/
def listNoExactDup (l : List MarkerDict) : Prop :=
  l.Pairwise (fun a b => a.test ≠ b.test)

def resultNoExactDup (r : PipelineResult) : Prop :=
  listNoExactDup r.hematology ∧ listNoExactDup r.clinicalChemistry ∧
  listNoExactDup r.hormones ∧ listNoExactDup r.clinicalImmunology ∧
  listNoExactDup r.metalsTraceElements ∧ listNoExactDup r.micronutrients ∧
  listNoExactDup r.quotients ∧ listNoExactDup r.fattyAcids.omega3 ∧
  listNoExactDup r.fattyAcids.omega6 ∧ listNoExactDup r.fattyAcids.mono ∧
  listNoExactDup r.fattyAcids.transFat ∧
  listNoExactDup r.fattyAcids.saturatedFat

/-- Completeness-maximum fold step of the duplicate remover, written from
the specification: the later record wins only when strictly more
complete, so ties keep the earlier record. -/
def pickBetter (a b : MarkerDict) : MarkerDict :=
  if markerCompleteness a < markerCompleteness b then b else a

/-- Markers of the list sharing the given lowercased test name. -/
def groupOf (l : List MarkerDict) (k : List Char) : List MarkerDict :=
  l.filter (fun m => mkey m == k)

/-- The record the specification keeps for one key: the first-seen
maximally complete member of the group. -/
def keptFor (l : List MarkerDict) (k : List Char) : Option MarkerDict :=
  match groupOf l k with
  | [] => none
  | h :: t => some (t.foldl pickBetter h)

/-- The lowercased test names of the list in first-occurrence order. -/
def distinctKeys : List MarkerDict → List (List Char)
  | [] => []
  | m :: t => mkey m :: (distinctKeys t).filter (fun k => k ≠ mkey m)

/-- Specification-level duplicate removal: one kept record per distinct
key, in first-occurrence order of the keys. -/
def dedupeSpec (l : List MarkerDict) : List MarkerDict :=
  (distinctKeys l).filterMap (keptFor l)

section EasyClaimLemmas

theorem routeMarker_stats (m : BloodMarker) (d : MarkerDict)
    (r : PipelineResult) :
    (routeMarker m d r).extractionStats = r.extractionStats := by
  cases hc : m.category <;> simp [routeMarker, hc]

theorem classifyGo_eq_findD (name : List Char) (l : List MarkerCategory) :
    classifyGo name l =
      ((l.find? (fun c => matchesCategory name c)).getD
        MarkerCategory.CLINICAL_CHEMISTRY) := by
  induction l with
  | nil => rfl
  | cons c rest ih =>
      cases hc : matchesCategory name c with
      | true => simp [classifyGo, hc, List.find?_cons_of_pos _ hc]
      | false =>
          rw [List.find?_cons_of_neg _ (by simp [hc])]
          simp [classifyGo, hc, ih]

end EasyClaimLemmas

/-- Marker used by the concrete duplicate-call scenarios. -/
def demoCriticalMarker : BloodMarker :=
  { test := "Leukozyten".toList, result := "5".toList, unit := [],
    refRange := [], category := .HEMATOLOGY, isCritical := true }

def demoDupResult : PipelineResult :=
  addMarkerToResult demoCriticalMarker
    (addMarkerToResult demoCriticalMarker initializeResultStructure)

/-- C3 counterexample: the whitespace-only test input " " passes the
pre-normalization emptiness check of BloodMarker, so construction
succeeds although the normalized test is empty; this falsifies the claim
that every successfully constructed marker has a non-empty test. -/
theorem claim_C3_counterexample :
    (mkBloodMarker (" ".toList) ("1".toList) [] []
        MarkerCategory.CLINICAL_CHEMISTRY false).isSome = true ∧
    (mkBloodMarker (" ".toList) ("1".toList) [] []
        MarkerCategory.CLINICAL_CHEMISTRY false).map BloodMarker.test =
      some [] := by
  constructor <;> rfl

/-- C3 (amended): BloodMarker construction succeeds exactly when the raw,
pre-normalization test and result strings are non-empty; the normalized
test or result of a constructed marker can still be empty when the input
consists only of whitespace or control characters. -/
theorem claim_C3_construction_iff_raw_nonempty
    (test result unit refRange : List Char) (category : MarkerCategory)
    (isCritical : Bool) :
    (mkBloodMarker test result unit refRange category isCritical).isSome =
        true ↔
      (test ≠ [] ∧ result ≠ []) := by
  unfold mkBloodMarker
  by_cases ht : test = [] <;> by_cases hr : result = [] <;> simp [ht, hr]

/-- C6 counterexample: a result string consisting of asterisks matches
the first critical pattern, yet the check returns false because the
reference range is empty; this falsifies the claim that a critical
result is flagged regardless of the reference-range content. -/
theorem claim_C6_counterexample :
    isCriticalValue ("**".toList) [] = false ∧
    (criticalPatternChecks.any (fun p => p ("**".toList))) = true := by
  constructor <;> rfl

/-- C6 (amended): the criticality check returns true exactly when the
reference range is non-empty and some fixed critical pattern matches the
result string or the reference-range string; with an empty reference
range it always returns false. -/
theorem claim_C6_critical_iff_amended (result reference : List Char) :
    isCriticalValue result reference = true ↔
      (reference ≠ [] ∧ ∃ p ∈ criticalPatternChecks,
        (p reference = true ∨ p result = true)) := by
  unfold isCriticalValue
  by_cases h : reference = []
  · simp [h]
  · simp [h, List.any_eq_true]

/-- C4: classification is a total function into the eight categories; it
equals the first category of the fixed declaration order whose keywords
or regex alternatives hit, and falls back to clinical chemistry when no
category matches. -/
theorem claim_C4_classifier_total_first_hit (name : List Char)
    (_hne : name ≠ []) :
    classifyMarker name =
      ((categoryOrder.find? (fun c => matchesCategory name c)).getD
        MarkerCategory.CLINICAL_CHEMISTRY) ∧
    classifyMarker name ∈ categoryOrder ∧
    ((∀ c ∈ categoryOrder, matchesCategory name c = false) →
      classifyMarker name = MarkerCategory.CLINICAL_CHEMISTRY) := by
  refine ⟨classifyGo_eq_findD name categoryOrder, ?_, ?_⟩
  · rw [classifyMarker, classifyGo_eq_findD]
    cases hf : categoryOrder.find? (fun c => matchesCategory name c) with
    | none => simp [categoryOrder]
    | some c => simpa using List.mem_of_find?_eq_some hf
  · intro hall
    rw [classifyMarker, classifyGo_eq_findD]
    rw [List.find?_eq_none.mpr (by intro c hc; simp [hall c hc])]
    rfl

theorem claim_C4_classifier_total_first_hit_witness :
    classifyMarker ("Ferritin".toList) =
      ((categoryOrder.find? (fun c => matchesCategory ("Ferritin".toList) c)).getD
        MarkerCategory.CLINICAL_CHEMISTRY) ∧
    classifyMarker ("Ferritin".toList) = MarkerCategory.CLINICAL_CHEMISTRY := by
  have h := claim_C4_classifier_total_first_hit ("Ferritin".toList) (by decide)
  exact ⟨h.1, by decide⟩

/-- C10: every add-marker call increments the total counter by exactly
one and, for a critical marker, appends its name to the critical-values
list, independently of the duplicate guard; the concrete double add of
one critical marker shows the counter exceeding the stored count and the
critical-values list repeating the name. -/
theorem claim_C10_unconditional_stats_effects (m : BloodMarker)
    (r : PipelineResult) :
    (addMarkerToResult m r).extractionStats.totalMarkersFound =
        r.extractionStats.totalMarkersFound + 1 ∧
    (m.isCritical = true →
      (addMarkerToResult m r).extractionStats.criticalValues =
        r.extractionStats.criticalValues ++ [m.test]) ∧
    (demoDupResult.extractionStats.totalMarkersFound = 2 ∧
      storedMarkerCount demoDupResult = 1 ∧
      demoDupResult.extractionStats.criticalValues =
        ["Leukozyten".toList, "Leukozyten".toList]) := by
  refine ⟨?_, ?_, by refine ⟨?_, ?_, ?_⟩ <;> rfl⟩
  · by_cases hc : m.isCritical <;>
      simp [addMarkerToResult, routeMarker_stats, hc]
  · intro hc
    simp [addMarkerToResult, routeMarker_stats, hc]

theorem claim_C10_unconditional_stats_effects_witness :
    (addMarkerToResult demoCriticalMarker
        initializeResultStructure).extractionStats.criticalValues =
      initializeResultStructure.extractionStats.criticalValues ++
        ["Leukozyten".toList] :=
  (claim_C10_unconditional_stats_effects demoCriticalMarker
    initializeResultStructure).2.1 rfl

/-- C1: whatever the outcomes of the three guarded steps of the make.com
entry point, the response always carries the status success or error
(the totality of this function is the no-escaping-exception guarantee),
and a completed processing step always yields the success status with
the pipeline result attached, so parsing shortfalls surface inside the
attached extraction stats rather than as an error. -/
theorem claim_C1_response_status_dichotomy (d : PyOutcome (List Nat))
    (i : PyOutcome Unit) (p : PyOutcome PipelineResult) :
    ((processForMakecom d i p).status = "success".toList ∨
      (processForMakecom d i p).status = "error".toList) ∧
    (∀ b u r, d = .ok b → i = .ok u → p = .ok r →
      (processForMakecom d i p).status = "success".toList ∧
      (processForMakecom d i p).payload = some r) ∧
    ((processForMakecom d i p).status = "success".toList →
      (processForMakecom d i p).payload.isSome = true) := by
  cases d <;> cases i <;> cases p <;>
    refine ⟨?_, ?_, ?_⟩ <;> simp [processForMakecom, errorResponse]

theorem claim_C1_response_status_dichotomy_witness :
    (processForMakecom (.ok []) (.ok ())
        (.ok initializeResultStructure)).status = "success".toList ∧
    (processForMakecom (.ok []) (.ok ())
        (.ok initializeResultStructure)).payload =
      some initializeResultStructure := by
  have h := claim_C1_response_status_dichotomy (.ok []) (.ok ())
    (.ok initializeResultStructure)
  exact h.2.1 [] () initializeResultStructure rfl rfl rfl

def ferritinText : List Char := "Ferritin: 120 ng/ml".toList

def ferritinRun : PipelineResult :=
  patternExtractionFallback ferritinText initializeResultStructure

/-- C5 counterexample: on the document text "Ferritin: 120 ng/ml" the
pattern fallback produces a marker whose unit is the normalized
"ng/mL", not the claimed raw "ng/ml" (the BloodMarker unit table maps
the lowercase form to the capitalized one). -/
theorem claim_C5_counterexample :
    ferritinRun.clinicalChemistry.map MarkerDict.unit = ["ng/mL".toList] ∧
    "ng/mL".toList ≠ "ng/ml".toList := by
  constructor <;> decide

/-- C5 (amended): pattern extraction on "Ferritin: 120 ng/ml" yields
exactly one marker, with test "Ferritin", result "120", normalized unit
"ng/mL", empty reference range, and category clinical chemistry, stored
in the clinical-chemistry list with the total counter at one. -/
theorem claim_C5_ferritin_scenario :
    ferritinRun.clinicalChemistry =
      [{ test := "Ferritin".toList, result := "120".toList,
         unit := "ng/mL".toList, refRange := [], critical := false }] ∧
    ferritinRun.extractionStats.totalMarkersFound = 1 ∧
    classifyMarker ("Ferritin".toList) = MarkerCategory.CLINICAL_CHEMISTRY ∧
    ferritinRun.hematology = [] ∧ ferritinRun.hormones = [] ∧
    ferritinRun.clinicalImmunology = [] ∧
    ferritinRun.metalsTraceElements = [] ∧
    ferritinRun.micronutrients = [] ∧ ferritinRun.quotients = [] := by
  refine ⟨?_, ?_, ?_, ?_, ?_, ?_, ?_, ?_, ?_⟩ <;> decide

section PostProcessingLemmas

theorem removeDuplicates_stats (r : PipelineResult) :
    (removeDuplicates r).extractionStats = r.extractionStats := rfl

theorem sortMarkers_stats (r : PipelineResult) :
    (sortMarkers r).extractionStats = r.extractionStats := rfl

theorem calculateConfidence_total (r : PipelineResult) :
    (calculateConfidence r).extractionStats.totalMarkersFound =
      r.extractionStats.totalMarkersFound := by
  by_cases ht : 0 < r.extractionStats.totalMarkersFound <;>
    simp [calculateConfidence, ht]

theorem calculateConfidence_status (r : PipelineResult) :
    (calculateConfidence r).extractionStats.validationStatus =
      r.extractionStats.validationStatus := by
  by_cases ht : 0 < r.extractionStats.totalMarkersFound <;>
    simp [calculateConfidence, ht]

theorem calculateConfidence_zero (r : PipelineResult)
    (h : r.extractionStats.markersWithReference = 0) :
    (calculateConfidence r).extractionStats.extractionConfidence = 0 := by
  by_cases ht : 0 < r.extractionStats.totalMarkersFound
  · simp [calculateConfidence, ht, h]
    norm_num [roundTwoPlaces, roundHalfEven]
  · simp [calculateConfidence, ht, h]

theorem validateAgainstReference_empty (r : PipelineResult) :
    validateAgainstReference [] r = r := rfl

theorem validateAgainstReference_conf (catalog : List (List Char))
    (r : PipelineResult) :
    (validateAgainstReference catalog r).extractionStats.extractionConfidence =
      r.extractionStats.extractionConfidence := by
  unfold validateAgainstReference
  split <;> rfl

theorem validateAgainstReference_status (catalog : List (List Char))
    (r : PipelineResult) (hc : catalog ≠ []) :
    (validateAgainstReference catalog r).extractionStats.validationStatus =
      (if r.extractionStats.totalMarkersFound < 5 then
        "warning: low marker count".toList
       else if r.extractionStats.extractionConfidence < 50 then
        "warning: low confidence".toList
       else "success".toList) := by
  unfold validateAgainstReference
  simp [hc]

end PostProcessingLemmas

/-- C9 counterexample: with an empty reference catalog the validation
step returns early, so the post-processing pass on the freshly
initialized result leaves the validation status at "pending", although
fewer than five markers were found; this falsifies the claimed status
characterization. -/
theorem claim_C9_counterexample :
    (safePostProcessing []
        initializeResultStructure).extractionStats.validationStatus =
      "pending".toList ∧
    initializeResultStructure.extractionStats.totalMarkersFound < 5 ∧
    "pending".toList ≠ "warning: low marker count".toList := by
  refine ⟨?_, ?_, ?_⟩ <;> decide

/-- C9 (amended): in the single post-processing pass the confidence is
computed from the with-reference counter as initialized (zero), so the
final extraction confidence is always zero; with a non-empty reference
catalog the validation status is the low-marker-count warning below five
total markers and the low-confidence warning otherwise, never success;
with an empty catalog the validation step returns early and the status
keeps its prior value. -/
theorem claim_C9_confidence_always_zero (catalog : List (List Char))
    (r : PipelineResult)
    (h0 : r.extractionStats.markersWithReference = 0) :
    (safePostProcessing catalog r).extractionStats.extractionConfidence = 0 ∧
    (catalog = [] →
      (safePostProcessing catalog r).extractionStats.validationStatus =
        r.extractionStats.validationStatus) ∧
    (catalog ≠ [] →
      (safePostProcessing catalog r).extractionStats.validationStatus =
        (if r.extractionStats.totalMarkersFound < 5 then
          "warning: low marker count".toList
         else "warning: low confidence".toList)) ∧
    (r.extractionStats.validationStatus ≠ "success".toList →
      (safePostProcessing catalog r).extractionStats.validationStatus ≠
        "success".toList) := by
  have hs : (sortMarkers (removeDuplicates r)).extractionStats =
      r.extractionStats := by
    rw [sortMarkers_stats, removeDuplicates_stats]
  have hconf :
      (calculateConfidence
          (sortMarkers (removeDuplicates r))).extractionStats.extractionConfidence = 0 := by
    apply calculateConfidence_zero
    rw [hs, h0]
  have htot :
      (calculateConfidence
          (sortMarkers (removeDuplicates r))).extractionStats.totalMarkersFound =
        r.extractionStats.totalMarkersFound := by
    rw [calculateConfidence_total, hs]
  have hstat :
      (calculateConfidence
          (sortMarkers (removeDuplicates r))).extractionStats.validationStatus =
        r.extractionStats.validationStatus := by
    rw [calculateConfidence_status, hs]
  refine ⟨?_, ?_, ?_, ?_⟩
  · rw [safePostProcessing, validateAgainstReference_conf, hconf]
  · intro hc
    rw [safePostProcessing, hc, validateAgainstReference_empty, hstat]
  · intro hc
    rw [safePostProcessing, validateAgainstReference_status _ _ hc, hconf,
      htot]
    split
    · rfl
    · norm_num
  · intro hne
    by_cases hc : catalog = []
    · rw [safePostProcessing, hc, validateAgainstReference_empty, hstat]
      exact hne
    · rw [safePostProcessing, validateAgainstReference_status _ _ hc, hconf,
        htot]
      split
      · decide
      · rw [if_pos (by norm_num)]
        decide

theorem claim_C9_confidence_always_zero_witness :
    (safePostProcessing ["ferritin".toList]
        initializeResultStructure).extractionStats.extractionConfidence = 0 ∧
    (safePostProcessing ["ferritin".toList]
        initializeResultStructure).extractionStats.validationStatus =
      "warning: low marker count".toList := by
  have h := claim_C9_confidence_always_zero ["ferritin".toList]
    initializeResultStructure rfl
  refine ⟨h.1, ?_⟩
  have h3 := h.2.2.1 (by decide)
  rw [h3]
  decide

theorem appendIfNewTest_noDup (d : MarkerDict) (l : List MarkerDict)
    (h : listNoExactDup l) : listNoExactDup (appendIfNewTest d l) := by
  unfold appendIfNewTest
  by_cases hc : l.any (fun x => x.test == d.test) = true
  · simpa [hc] using h
  · have h2 : ∀ x ∈ l, x.test ≠ d.test := by
      intro x hx
      have := (List.any_eq_true).not.mp hc
      push_neg at this
      have h3 := this x hx
      simpa using h3
    simp only [hc, if_false, Bool.false_eq_true]
    unfold listNoExactDup at h ⊢
    rw [List.pairwise_append]
    refine ⟨h, List.pairwise_singleton _ _, ?_⟩
    intro a ha b hb
    simp only [List.mem_singleton] at hb
    subst hb
    exact h2 a ha

def crpUpperMarker : BloodMarker :=
  { test := "CRP".toList, result := "5".toList, unit := [], refRange := [],
    category := classifyMarker ("CRP".toList), isCritical := false }

def crpLowerMarker : BloodMarker :=
  { test := "crp".toList, result := "7".toList, unit := [], refRange := [],
    category := classifyMarker ("crp".toList), isCritical := false }

def crpDemoResult : PipelineResult :=
  addMarkerToResult crpLowerMarker
    (addMarkerToResult crpUpperMarker initializeResultStructure)

/-- C7 counterexample: the duplicate guard compares test names by exact
string equality, so adding CRP and then crp (both classified to clinical
immunology) stores both records in the same list although their names
differ only in letter case; this falsifies the claimed lowercased
comparison and the claimed invariant. -/
theorem claim_C7_counterexample :
    crpDemoResult.clinicalImmunology.map MarkerDict.test =
      ["CRP".toList, "crp".toList] ∧
    lowerStr ("CRP".toList) = lowerStr ("crp".toList) ∧
    ("CRP".toList : List Char) ≠ "crp".toList := by
  refine ⟨?_, ?_, ?_⟩ <;> decide

/-- C7 (amended): add-marker routes the marker to the list of its
category (through the fatty-acid subclassifier for that category) and
skips the append exactly when a marker with the identical test string is
already in that list; hence after any sequence of calls no list holds
two markers with identical test strings, while names differing only in
case may coexist. -/
theorem claim_C7_exact_dup_guard (m : BloodMarker) (r : PipelineResult) :
    targetList m (addMarkerToResult m r) =
      (if (targetList m r).any (fun x => x.test == m.test) then targetList m r
       else targetList m r ++ [markerToDict m]) ∧
    (resultNoExactDup r → resultNoExactDup (addMarkerToResult m r)) := by
  constructor
  · by_cases hcrit : m.isCritical <;>
      cases hcat : m.category <;>
      cases hsub : classifyFattyAcid m.test <;>
      simp [targetList, addMarkerToResult, routeMarker, hcat, hcrit, hsub,
        faSubList, updateFA, markerToDict, appendIfNewTest]
  · intro h
    obtain ⟨h1, h2, h3, h4, h5, h6, h7, h8, h9, h10, h11, h12⟩ := h
    by_cases hcrit : m.isCritical <;>
      cases hcat : m.category <;>
      cases hsub : classifyFattyAcid m.test <;>
      simp only [addMarkerToResult, routeMarker, hcat, hcrit, updateFA, hsub,
        resultNoExactDup, if_true, if_false, Bool.false_eq_true] <;>
      refine ⟨?_, ?_, ?_, ?_, ?_, ?_, ?_, ?_, ?_, ?_, ?_, ?_⟩ <;>
      first
        | assumption
        | exact appendIfNewTest_noDup _ _ (by assumption)

theorem claim_C7_exact_dup_guard_witness :
    resultNoExactDup
      (addMarkerToResult crpUpperMarker initializeResultStructure) := by
  have h := claim_C7_exact_dup_guard crpUpperMarker initializeResultStructure
  exact h.2 ⟨List.Pairwise.nil, List.Pairwise.nil, List.Pairwise.nil,
    List.Pairwise.nil, List.Pairwise.nil, List.Pairwise.nil,
    List.Pairwise.nil, List.Pairwise.nil, List.Pairwise.nil,
    List.Pairwise.nil, List.Pairwise.nil, List.Pairwise.nil⟩

/-- No two adjacent characters are both whitespace. -/
def noAdjacentWs : List Char → Bool
  | [] => true
  | [_] => true
  | a :: b :: t => !(isPySpace a && isPySpace b) && noAdjacentWs (b :: t)

/-- A chunk of text left unchanged by the artifact cleanup: no control
characters, every whitespace character is a plain space, no two adjacent
whitespace characters, and no leading or trailing whitespace. -/
def cleanChunk (l : List Char) : Bool :=
  l.all (fun c => !isRemovedCtl c) &&
  l.all (fun c => !isPySpace c || c == ' ') &&
  noAdjacentWs l &&
  (match l.head? with | some c => !isPySpace c | none => true) &&
  (match l.getLast? with | some c => !isPySpace c | none => true)

section CleanChunkLemmas

theorem dropWhile_id_of_head (l : List Char)
    (h : ∀ c, l.head? = some c → isPySpace c = false) :
    l.dropWhile isPySpace = l := by
  cases l with
  | nil => rfl
  | cons c t =>
      have hc := h c rfl
      simp [List.dropWhile_cons, hc]

theorem stripPy_id (l : List Char)
    (hh : ∀ c, l.head? = some c → isPySpace c = false)
    (hl : ∀ c, l.getLast? = some c → isPySpace c = false) :
    stripPy l = l := by
  unfold stripPy dropTrailingWs
  rw [dropWhile_id_of_head l hh]
  rw [dropWhile_id_of_head l.reverse ?hrev, List.reverse_reverse]
  intro c hc
  apply hl
  rwa [List.head?_reverse] at hc

theorem noAdjacentWs_tail (c : Char) (t : List Char)
    (h : noAdjacentWs (c :: t) = true) : noAdjacentWs t = true := by
  cases t with
  | nil => rfl
  | cons b t2 =>
      have h2 : (!(isPySpace c && isPySpace b) && noAdjacentWs (b :: t2)) =
          true := h
      simp only [Bool.and_eq_true] at h2
      exact h2.2

theorem collapseAux_id (l : List Char)
    (hplain : ∀ c ∈ l, isPySpace c = true → c = ' ')
    (hadj : noAdjacentWs l = true) :
    collapseAux false l = l ∧
      ((∀ c, l.head? = some c → isPySpace c = false) →
        collapseAux true l = l) := by
  induction l with
  | nil => exact ⟨rfl, fun _ => rfl⟩
  | cons c t ih =>
      have hplain2 : ∀ x ∈ t, isPySpace x = true → x = ' ' :=
        fun x hx => hplain x (List.mem_cons_of_mem _ hx)
      obtain ⟨ihf, iht⟩ := ih hplain2 (noAdjacentWs_tail c t hadj)
      by_cases hc : isPySpace c = true
      · have hcsp : c = ' ' := hplain c (List.mem_cons_self c t) hc
        have hheadt : ∀ x, t.head? = some x → isPySpace x = false := by
          intro x hx
          cases t with
          | nil => simp at hx
          | cons b t2 =>
              simp only [List.head?_cons, Option.some.injEq] at hx
              subst hx
              have h2 : (!(isPySpace c && isPySpace b) &&
                  noAdjacentWs (b :: t2)) = true := hadj
              simp only [Bool.and_eq_true] at h2
              have h3 := h2.1
              rw [hc] at h3
              simpa using h3
        subst hcsp
        refine ⟨?_, ?_⟩
        · simp [collapseAux, hc, iht hheadt]
        · intro hhead
          exact absurd hc (by simp [hhead ' ' rfl])
      · have hcf : isPySpace c = false := by simpa using hc
        refine ⟨?_, ?_⟩
        · simp [collapseAux, hcf, ihf]
        · intro _
          simp [collapseAux, hcf, ihf]

theorem normalizeArtifacts_id (l : List Char) (h : cleanChunk l = true) :
    normalizeArtifacts l = l := by
  have hparts := h
  unfold cleanChunk at hparts
  rw [Bool.and_eq_true, Bool.and_eq_true, Bool.and_eq_true,
    Bool.and_eq_true] at hparts
  obtain ⟨⟨⟨⟨hctl, hplain⟩, hadj⟩, hhead⟩, hlast⟩ := hparts
  have hheadP : ∀ c, l.head? = some c → isPySpace c = false := by
    intro c hc
    rw [hc] at hhead
    simpa using hhead
  have hlastP : ∀ c, l.getLast? = some c → isPySpace c = false := by
    intro c hc
    rw [hc] at hlast
    simpa using hlast
  have hplainP : ∀ c ∈ l, isPySpace c = true → c = ' ' := by
    intro c hc hsp
    have := (List.all_eq_true.mp hplain) c hc
    rw [hsp] at this
    simpa using this
  unfold normalizeArtifacts collapseWs removeCtl
  rw [stripPy_id l hheadP hlastP]
  rw [(collapseAux_id l hplainP hadj).1]
  exact List.filter_eq_self.mpr (by
    intro c hc
    simpa using (List.all_eq_true.mp hctl) c hc)

theorem pySlice_nil_of_le (l : List Char) (a b : Nat) (h : b ≤ a) :
    pySlice l a b = [] := by
  apply List.drop_eq_nil_of_le
  calc (l.take b).length ≤ b := by
        rw [List.length_take]
        exact min_le_left _ _
    _ ≤ a := h

theorem pySlice_ne_nil (l : List Char) (a b : Nat) (ha : a < b)
    (hb : b ≤ l.length) : pySlice l a b ≠ [] := by
  have hlen : (pySlice l a b).length = b - a := by
    unfold pySlice
    rw [List.length_drop, List.length_take]
    omega
  intro hnil
  rw [hnil] at hlen
  simp at hlen
  omega

end CleanChunkLemmas

theorem anchor_single_segment (fullText : List Char) (s e : Int) :
    safeTextAnchorExtraction (.obj none (some [⟨some s, some e⟩])) fullText =
      normalizeArtifacts (pySlice fullText
        (max 0 (min s (fullText.length : Int))).toNat
        (max (max 0 (min s (fullText.length : Int)))
          (min e (fullText.length : Int))).toNat) := by
  simp only [safeTextAnchorExtraction, segmentParts, segmentSlice,
    List.foldl, Option.getD]
  by_cases hlt : max 0 (min s (fullText.length : Int)) <
      max (max 0 (min s (fullText.length : Int)))
        (min e (fullText.length : Int))
  · have hab : (max 0 (min s (fullText.length : Int))).toNat <
        (max (max 0 (min s (fullText.length : Int)))
          (min e (fullText.length : Int))).toNat := by omega
    have hbl : (max (max 0 (min s (fullText.length : Int)))
        (min e (fullText.length : Int))).toNat ≤ fullText.length := by omega
    have hne := pySlice_ne_nil fullText _ _ hab hbl
    simp [hlt, hne]
  · have hba : (max (max 0 (min s (fullText.length : Int)))
        (min e (fullText.length : Int))).toNat ≤
        (max 0 (min s (fullText.length : Int))).toNat := by omega
    rw [pySlice_nil_of_le fullText _ _ hba]
    simp [hlt]
    rfl

/-- C2 counterexample: a valid in-range span over the text with a double
space resolves to the whitespace-collapsed string, not to the exact
slice; this falsifies the claimed exact equality with the slice. -/
theorem claim_C2_counterexample :
    safeTextAnchorExtraction (.obj none (some [⟨some 0, some 4⟩]))
        ("a  b".toList) = "a b".toList ∧
    pySlice ("a  b".toList) 0 4 = "a  b".toList ∧
    ("a b".toList : List Char) ≠ "a  b".toList := by
  refine ⟨?_, ?_, ?_⟩ <;> decide

/-- C2 (amended): for a valid span whose slice carries no control
characters, no whitespace other than isolated interior plain spaces and
no leading or trailing whitespace, resolution returns exactly the slice;
every other span, out-of-range or inverted ones included, resolves to
the artifact-cleaned clamped slice without failing, and the malformed
anchors resolve to the empty string. -/
theorem claim_C2_span_resolution (fullText : List Char) :
    (∀ s e : Nat, s ≤ e → e ≤ fullText.length →
      cleanChunk (pySlice fullText s e) = true →
      safeTextAnchorExtraction
          (.obj none (some [⟨some (s : Int), some (e : Int)⟩])) fullText =
        pySlice fullText s e) ∧
    (∀ s e : Int,
      safeTextAnchorExtraction (.obj none (some [⟨some s, some e⟩])) fullText =
        normalizeArtifacts (pySlice fullText
          (max 0 (min s (fullText.length : Int))).toNat
          (max (max 0 (min s (fullText.length : Int)))
            (min e (fullText.length : Int))).toNat)) ∧
    (safeTextAnchorExtraction .pyNone fullText = [] ∧
      safeTextAnchorExtraction (.obj none none) fullText = [] ∧
      safeTextAnchorExtraction (.obj none (some [])) fullText = [] ∧
      safeTextAnchorExtraction (.obj (some []) none) fullText = []) := by
  refine ⟨?_, fun s e => anchor_single_segment fullText s e,
    rfl, rfl, rfl, rfl⟩
  intro s e hse hel hclean
  have h := anchor_single_segment fullText (s : Int) (e : Int)
  have h1 : (max 0 (min (s : Int) (fullText.length : Int))).toNat = s := by
    omega
  have h2 : (max (max 0 (min (s : Int) (fullText.length : Int)))
      (min (e : Int) (fullText.length : Int))).toNat = e := by
    omega
  rw [h, h1, h2]
  exact normalizeArtifacts_id _ hclean

theorem claim_C2_span_resolution_witness :
    safeTextAnchorExtraction
        (.obj none (some [⟨some (0 : Int), some (2 : Int)⟩])) ("abc".toList) =
      pySlice ("abc".toList) 0 2 :=
  (claim_C2_span_resolution ("abc".toList)).1 0 2 (by decide) (by decide)
    (by decide)

section DedupeLemmas

theorem filterMapCongrMem {α β : Type} (f g : α → Option β) (l : List α)
    (h : ∀ a ∈ l, f a = g a) : l.filterMap f = l.filterMap g := by
  induction l with
  | nil => rfl
  | cons x t ih =>
      rw [List.filterMap_cons, List.filterMap_cons,
        h x (List.mem_cons_self x t),
        ih (fun a ha => h a (List.mem_cons_of_mem _ ha))]

theorem mem_groupOf (l : List MarkerDict) (k : List Char) (x : MarkerDict) :
    x ∈ groupOf l k ↔ x ∈ l ∧ mkey x = k := by
  simp [groupOf, List.mem_filter]

theorem foldl_pickBetter_mem (t : List MarkerDict) (h : MarkerDict) :
    t.foldl pickBetter h ∈ h :: t := by
  induction t generalizing h with
  | nil => simp
  | cons b t2 ih =>
      rw [List.foldl_cons]
      have hm := ih (pickBetter h b)
      rcases List.mem_cons.mp hm with h1 | h2
      · rw [h1]
        unfold pickBetter
        split
        · exact List.mem_cons_of_mem _ (List.mem_cons_self b t2)
        · exact List.mem_cons_self h _
      · exact List.mem_cons_of_mem _ (List.mem_cons_of_mem _ h2)

theorem completeness_le_pickBetter_left (a b : MarkerDict) :
    markerCompleteness a ≤ markerCompleteness (pickBetter a b) := by
  unfold pickBetter
  split
  · omega
  · exact le_refl _

theorem completeness_le_pickBetter_right (a b : MarkerDict) :
    markerCompleteness b ≤ markerCompleteness (pickBetter a b) := by
  unfold pickBetter
  split
  · exact le_refl _
  · omega

theorem completeness_le_foldl (t : List MarkerDict) :
    ∀ h x, x ∈ h :: t →
      markerCompleteness x ≤ markerCompleteness (t.foldl pickBetter h) := by
  induction t with
  | nil =>
      intro h x hx
      simp at hx
      subst hx
      exact le_refl _
  | cons b t2 ih =>
      intro h x hx
      rw [List.foldl_cons]
      rcases List.mem_cons.mp hx with h1 | h2
      · subst h1
        exact le_trans (completeness_le_pickBetter_left x b)
          (ih (pickBetter x b) (pickBetter x b)
            (List.mem_cons_self _ _))
      · rcases List.mem_cons.mp h2 with h3 | h4
        · subst h3
          exact le_trans (completeness_le_pickBetter_right h x)
            (ih (pickBetter h x) (pickBetter h x)
              (List.mem_cons_self _ _))
        · exact ih (pickBetter h b) x (List.mem_cons_of_mem _ h4)

theorem keptFor_spec (l : List MarkerDict) (k : List Char) (v : MarkerDict)
    (h : keptFor l k = some v) : v ∈ l ∧ mkey v = k := by
  unfold keptFor at h
  cases hg : groupOf l k with
  | nil => rw [hg] at h; cases h
  | cons g0 gt =>
      rw [hg] at h
      injection h with hv
      subst hv
      have hmem : gt.foldl pickBetter g0 ∈ g0 :: gt :=
        foldl_pickBetter_mem gt g0
      rw [← hg] at hmem
      exact (mem_groupOf l k _).mp hmem

theorem keptFor_isSome_of_mem (l : List MarkerDict) (m : MarkerDict)
    (hm : m ∈ l) : ∃ v, keptFor l (mkey m) = some v := by
  unfold keptFor
  cases hg : groupOf l (mkey m) with
  | nil =>
      exfalso
      have hmem : m ∈ groupOf l (mkey m) := (mem_groupOf _ _ _).mpr ⟨hm, rfl⟩
      rw [hg] at hmem
      exact (List.not_mem_nil m) hmem
  | cons g0 gt => exact ⟨_, rfl⟩

theorem groupOf_append_single (p : List MarkerDict) (m : MarkerDict)
    (k : List Char) :
    groupOf (p ++ [m]) k =
      groupOf p k ++ (if mkey m = k then [m] else []) := by
  unfold groupOf
  rw [List.filter_append]
  congr 1
  by_cases hk : mkey m = k <;> simp [hk]

theorem keptFor_append_single (p : List MarkerDict) (m : MarkerDict)
    (k : List Char) :
    keptFor (p ++ [m]) k =
      (if mkey m = k then
        (match keptFor p k with
         | none => some m
         | some e => some (pickBetter e m))
       else keptFor p k) := by
  unfold keptFor
  rw [groupOf_append_single]
  by_cases hk : mkey m = k
  · rw [if_pos hk, if_pos hk]
    cases hg : groupOf p k with
    | nil => simp
    | cons g0 gt => simp [List.foldl_append]
  · rw [if_neg hk, if_neg hk]
    simp

theorem mem_distinctKeys (l : List MarkerDict) (k : List Char) :
    k ∈ distinctKeys l ↔ ∃ m ∈ l, mkey m = k := by
  induction l with
  | nil => simp [distinctKeys]
  | cons m t ih =>
      simp only [distinctKeys, List.mem_cons, List.mem_filter,
        decide_eq_true_eq, ih]
      constructor
      · rintro (h1 | ⟨⟨x, hx, hk⟩, _⟩)
        · exact ⟨m, Or.inl rfl, h1.symm⟩
        · exact ⟨x, Or.inr hx, hk⟩
      · rintro ⟨x, hx, hk⟩
        rcases hx with h1 | h2
        · subst h1; left; exact hk.symm
        · by_cases he : k = mkey m
          · left; exact he
          · right; exact ⟨⟨x, h2, hk⟩, he⟩

theorem distinctKeys_nodup (l : List MarkerDict) : (distinctKeys l).Nodup := by
  induction l with
  | nil => simp [distinctKeys]
  | cons m t ih =>
      rw [distinctKeys]
      refine List.Nodup.cons ?_ (ih.filter _)
      intro hmem
      rw [List.mem_filter] at hmem
      simp at hmem

theorem distinctKeys_append_single (p : List MarkerDict) (m : MarkerDict) :
    distinctKeys (p ++ [m]) =
      (if mkey m ∈ distinctKeys p then distinctKeys p
       else distinctKeys p ++ [mkey m]) := by
  induction p with
  | nil => simp [distinctKeys]
  | cons x p2 ih =>
      rw [List.cons_append, distinctKeys, ih, distinctKeys]
      by_cases hmem : mkey m ∈ distinctKeys p2
      · rw [if_pos hmem, if_pos]
        by_cases hme : mkey m = mkey x
        · exact hme ▸ List.mem_cons_self _ _
        · exact List.mem_cons_of_mem _
            (List.mem_filter.mpr ⟨hmem, by simpa using hme⟩)
      · rw [if_neg hmem]
        by_cases hme : mkey m = mkey x
        · rw [if_pos (hme ▸ List.mem_cons_self _ _), List.filter_append]
          simp [hme]
        · rw [if_neg ?hnotin, List.filter_append]
          · simp [hme]
          · intro hin
            rcases List.mem_cons.mp hin with h1 | h2
            · exact hme h1
            · exact hmem (List.mem_filter.mp h2).1

theorem keptFor_eq_none_iff (l : List MarkerDict) (k : List Char) :
    keptFor l k = none ↔ groupOf l k = [] := by
  unfold keptFor
  cases hg : groupOf l k <;> simp

theorem dedupeSpec_append_new (p : List MarkerDict) (m : MarkerDict)
    (hk : keptFor p (mkey m) = none) :
    dedupeSpec (p ++ [m]) = dedupeSpec p ++ [m] := by
  have hnotin : mkey m ∉ distinctKeys p := by
    intro hmem
    obtain ⟨x, hx, hkx⟩ := (mem_distinctKeys p _).mp hmem
    have hgx : x ∈ groupOf p (mkey m) := (mem_groupOf _ _ _).mpr ⟨hx, hkx⟩
    rw [(keptFor_eq_none_iff p _).mp hk] at hgx
    exact (List.not_mem_nil x) hgx
  unfold dedupeSpec
  rw [distinctKeys_append_single, if_neg hnotin, List.filterMap_append]
  have hm : keptFor (p ++ [m]) (mkey m) = some m := by
    rw [keptFor_append_single, if_pos rfl, hk]
  congr 1
  · apply filterMapCongrMem
    intro k2 hk2
    rw [keptFor_append_single, if_neg]
    intro hEq
    exact hnotin (hEq ▸ hk2)
  · simp [hm]

theorem dedupeSpec_append_keep (p : List MarkerDict) (m e : MarkerDict)
    (he : keptFor p (mkey m) = some e)
    (hcomp : ¬ markerCompleteness e < markerCompleteness m) :
    dedupeSpec (p ++ [m]) = dedupeSpec p := by
  have hin : mkey m ∈ distinctKeys p := by
    obtain ⟨hmem, hkey⟩ := keptFor_spec p _ e he
    exact (mem_distinctKeys p _).mpr ⟨e, hmem, hkey⟩
  unfold dedupeSpec
  rw [distinctKeys_append_single, if_pos hin]
  apply filterMapCongrMem
  intro k2 hk2
  rw [keptFor_append_single]
  by_cases hEq : mkey m = k2
  · rw [if_pos hEq, ← hEq, he]
    simp [pickBetter, hcomp]
  · rw [if_neg hEq]

theorem replaceFirstEq_filterMap (ks : List (List Char))
    (p : List MarkerDict) (k : List Char) (e m2 : MarkerDict) :
    ks.Nodup → k ∈ ks → keptFor p k = some e →
    (∀ k2 ∈ ks, ∃ v, keptFor p k2 = some v) →
    replaceFirstEq e m2 (ks.filterMap (keptFor p)) =
      ks.filterMap (fun k2 => if k2 = k then some m2 else keptFor p k2) := by
  induction ks with
  | nil => intro _ hk _ _; cases hk
  | cons k0 ks2 ih =>
      intro hnd hk he hsome
      obtain ⟨v0, hv0⟩ := hsome k0 (List.mem_cons_self _ _)
      rw [List.filterMap_cons_some hv0]
      by_cases hk0 : k0 = k
      · subst hk0
        have hv0e : v0 = e := by
          rw [hv0] at he
          injection he
        subst hv0e
        rw [show List.filterMap
            (fun k2 => if k2 = k0 then some m2 else keptFor p k2)
            (k0 :: ks2) =
            m2 :: List.filterMap
              (fun k2 => if k2 = k0 then some m2 else keptFor p k2) ks2 by
          simp [List.filterMap_cons]]
        rw [show replaceFirstEq v0 m2
            (v0 :: List.filterMap (keptFor p) ks2) =
            m2 :: List.filterMap (keptFor p) ks2 by
          simp [replaceFirstEq]]
        congr 1
        apply filterMapCongrMem
        intro k2 hk2
        have hne : k2 ≠ k0 := by
          intro hEq
          exact (List.nodup_cons.mp hnd).1 (hEq ▸ hk2)
        simp [hne]
      · have hv0key : mkey v0 = k0 := (keptFor_spec p k0 v0 hv0).2
        have hekey : mkey e = k := (keptFor_spec p k e he).2
        have hne : v0 ≠ e := by
          intro hEq
          apply hk0
          rw [← hv0key, hEq, hekey]
        have hkmem : k ∈ ks2 := by
          rcases List.mem_cons.mp hk with h1 | h2
          · exact absurd h1.symm hk0
          · exact h2
        rw [show List.filterMap
            (fun k2 => if k2 = k then some m2 else keptFor p k2)
            (k0 :: ks2) =
            v0 :: List.filterMap
              (fun k2 => if k2 = k then some m2 else keptFor p k2) ks2 by
          simp [List.filterMap_cons, hk0, hv0]]
        rw [show replaceFirstEq e m2 (v0 :: List.filterMap (keptFor p) ks2) =
            v0 :: replaceFirstEq e m2 (List.filterMap (keptFor p) ks2) by
          simp [replaceFirstEq, hne]]
        congr 1
        exact ih (List.nodup_cons.mp hnd).2 hkmem he
          (fun k2 hk2 => hsome k2 (List.mem_cons_of_mem _ hk2))

theorem dedupeSpec_append_replace (p : List MarkerDict) (m e : MarkerDict)
    (he : keptFor p (mkey m) = some e)
    (hcomp : markerCompleteness e < markerCompleteness m) :
    replaceFirstEq e m (dedupeSpec p) = dedupeSpec (p ++ [m]) := by
  have hin : mkey m ∈ distinctKeys p := by
    obtain ⟨hmem, hkey⟩ := keptFor_spec p _ e he
    exact (mem_distinctKeys p _).mpr ⟨e, hmem, hkey⟩
  unfold dedupeSpec
  rw [distinctKeys_append_single, if_pos hin]
  rw [replaceFirstEq_filterMap (distinctKeys p) p (mkey m) e m
    (distinctKeys_nodup p) hin he ?hsome]
  case hsome =>
    intro k2 hk2
    obtain ⟨x, hx, hkx⟩ := (mem_distinctKeys p _).mp hk2
    subst hkx
    exact keptFor_isSome_of_mem p x hx
  apply filterMapCongrMem
  intro k2 hk2
  rw [keptFor_append_single]
  by_cases hEq : k2 = mkey m
  · rw [if_pos hEq, if_pos hEq.symm, hEq, he]
    simp [pickBetter, hcomp]
  · rw [if_neg hEq, if_neg (fun h => hEq h.symm)]

theorem assocFind_append_single (k2 k : List Char) (v : MarkerDict)
    (s : List (List Char × MarkerDict)) :
    assocFind k2 (s ++ [(k, v)]) =
      (match assocFind k2 s with
       | some x => some x
       | none => if k = k2 then some v else none) := by
  induction s with
  | nil => simp [assocFind]
  | cons kv t ih =>
      obtain ⟨k0, v0⟩ := kv
      by_cases h : k0 = k2 <;> simp [assocFind, h, ih]

theorem assocFind_update (k2 k : List Char) (v : MarkerDict)
    (s : List (List Char × MarkerDict)) :
    assocFind k2 (assocUpdate k v s) =
      (if k = k2 then some v else assocFind k2 s) := by
  induction s with
  | nil =>
      by_cases h : k = k2 <;> simp [assocUpdate, assocFind, h]
  | cons kv t ih =>
      obtain ⟨k0, v0⟩ := kv
      by_cases h0 : k0 = k
      · subst h0
        by_cases h2 : k0 = k2 <;> simp [assocUpdate, assocFind, h2]
      · by_cases h2 : k0 = k2
        · subst h2
          have hne : ¬ k = k0 := fun hEq => h0 hEq.symm
          simp [assocUpdate, assocFind, h0, hne]
        · simp [assocUpdate, assocFind, h0, h2, ih]

theorem dedupeGo_spec (l : List MarkerDict) :
    ∀ (p : List MarkerDict) (seen : List (List Char × MarkerDict)),
      (∀ k, assocFind k seen = keptFor p k) →
      dedupeGo l seen (dedupeSpec p) = dedupeSpec (p ++ l) := by
  induction l with
  | nil =>
      intro p seen _
      simp [dedupeGo]
  | cons m rest ih =>
      intro p seen hseen
      simp only [dedupeGo]
      rw [hseen (mkey m)]
      cases hkp : keptFor p (mkey m) with
      | none =>
          dsimp only
          rw [show dedupeSpec p ++ [m] = dedupeSpec (p ++ [m]) from
            (dedupeSpec_append_new p m hkp).symm]
          rw [show p ++ m :: rest = (p ++ [m]) ++ rest by simp]
          apply ih (p ++ [m]) (seen ++ [(mkey m, m)])
          intro k2
          rw [assocFind_append_single, hseen k2, keptFor_append_single]
          by_cases hEq : mkey m = k2
          · rw [← hEq, hkp]
          · cases hv : keptFor p k2 <;> simp [hEq, hv]
      | some e =>
          dsimp only
          rw [show p ++ m :: rest = (p ++ [m]) ++ rest by simp]
          by_cases hcomp : markerCompleteness e < markerCompleteness m
          · rw [if_pos hcomp]
            rw [dedupeSpec_append_replace p m e hkp hcomp]
            apply ih (p ++ [m]) (assocUpdate (mkey m) m seen)
            intro k2
            rw [assocFind_update, keptFor_append_single]
            by_cases hEq : mkey m = k2
            · rw [if_pos hEq, if_pos hEq, ← hEq, hkp]
              simp [pickBetter, hcomp]
            · rw [if_neg hEq, if_neg hEq, hseen k2]
          · rw [if_neg hcomp]
            rw [show dedupeSpec p = dedupeSpec (p ++ [m]) from
              (dedupeSpec_append_keep p m e hkp hcomp).symm]
            apply ih (p ++ [m]) seen
            intro k2
            rw [hseen k2, keptFor_append_single]
            by_cases hEq : mkey m = k2
            · rw [if_pos hEq, ← hEq, hkp]
              simp [pickBetter, hcomp]
            · rw [if_neg hEq]

theorem dedupeList_eq_spec (l : List MarkerDict) :
    dedupeList l = dedupeSpec l := by
  have h := dedupeGo_spec l [] [] (fun k => rfl)
  simpa [dedupeList, dedupeSpec, distinctKeys] using h

theorem map_mkey_filterMap_keptFor (l : List MarkerDict)
    (ks : List (List Char))
    (hsome : ∀ k ∈ ks, ∃ v, keptFor l k = some v) :
    (ks.filterMap (keptFor l)).map mkey = ks := by
  induction ks with
  | nil => rfl
  | cons k0 ks2 ih =>
      obtain ⟨v0, hv0⟩ := hsome k0 (List.mem_cons_self _ _)
      simp only [List.filterMap_cons, hv0, List.map_cons,
        (keptFor_spec l k0 v0 hv0).2]
      rw [ih (fun k2 hk2 => hsome k2 (List.mem_cons_of_mem _ hk2))]

theorem dedupeSpec_keys (l : List MarkerDict) :
    (dedupeSpec l).map mkey = distinctKeys l := by
  apply map_mkey_filterMap_keptFor
  intro k hk
  obtain ⟨m, hm, hkey⟩ := (mem_distinctKeys l k).mp hk
  subst hkey
  exact keptFor_isSome_of_mem l m hm

theorem dedupeSpec_fix (l : List MarkerDict) (h : (l.map mkey).Nodup) :
    dedupeSpec l = l := by
  induction l with
  | nil => rfl
  | cons m t ih =>
      rw [List.map_cons, List.nodup_cons] at h
      obtain ⟨hnotin, hnd⟩ := h
      have hknotin : mkey m ∉ distinctKeys t := by
        intro hmem
        obtain ⟨x, hx, hkx⟩ := (mem_distinctKeys t _).mp hmem
        exact hnotin (hkx ▸ List.mem_map_of_mem mkey hx)
      have hfilter : (distinctKeys t).filter (fun k => k ≠ mkey m) =
          distinctKeys t := by
        apply List.filter_eq_self.mpr
        intro k hk
        have hkne : k ≠ mkey m := fun hx => hknotin (hx ▸ hk)
        simp [hkne]
      have hgroupm : groupOf (m :: t) (mkey m) = [m] := by
        unfold groupOf
        rw [List.filter_cons]
        simp only [beq_self_eq_true, if_pos]
        have : t.filter (fun x => mkey x == mkey m) = [] := by
          rw [List.filter_eq_nil_iff]
          intro x hx
          simp only [beq_iff_eq]
          intro hEq
          exact hnotin (hEq ▸ List.mem_map_of_mem mkey hx)
        rw [this]
      have hkm : keptFor (m :: t) (mkey m) = some m := by
        unfold keptFor
        rw [hgroupm]
        rfl
      have hothers : ∀ k ∈ distinctKeys t,
          keptFor (m :: t) k = keptFor t k := by
        intro k hk
        have hkne : mkey m ≠ k := by
          intro hEq
          exact hknotin (hEq ▸ hk)
        unfold keptFor groupOf
        rw [List.filter_cons]
        simp [hkne]
      rw [dedupeSpec, distinctKeys, hfilter]
      simp only [List.filterMap_cons, hkm]
      rw [filterMapCongrMem _ _ _ hothers]
      rw [show (distinctKeys t).filterMap (keptFor t) = dedupeSpec t from rfl]
      rw [ih hnd]

theorem dedupeList_keys_nodup (l : List MarkerDict) :
    ((dedupeList l).map mkey).Nodup := by
  rw [dedupeList_eq_spec, dedupeSpec_keys]
  exact distinctKeys_nodup l

theorem dedupeList_idem (l : List MarkerDict) :
    dedupeList (dedupeList l) = dedupeList l := by
  rw [dedupeList_eq_spec (dedupeList l),
    dedupeSpec_fix _ (dedupeList_keys_nodup l)]

theorem removeDuplicates_idem (r : PipelineResult) :
    removeDuplicates (removeDuplicates r) = removeDuplicates r := by
  simp [removeDuplicates, dedupeList_idem]

end DedupeLemmas

def sampleDict : MarkerDict :=
  { test := "CRP".toList, result := "5".toList, unit := [],
    refRange := [], critical := false }

/-- C8: duplicate removal is idempotent on the whole result; the loop
over one category list equals the specification that keeps, per
lowercased test name in first-occurrence order, the first-seen record of
maximal completeness (the fold replaces only on strictly higher score,
so ties keep the first seen); and the kept record of each group scores
at least every member of its group, hence every discarded duplicate. -/
theorem claim_C8_dedup_idempotent_keeps_best (r : PipelineResult)
    (l : List MarkerDict) (m : MarkerDict) (hm : m ∈ l) :
    removeDuplicates (removeDuplicates r) = removeDuplicates r ∧
    dedupeList l = dedupeSpec l ∧
    (∃ kept, keptFor l (mkey m) = some kept ∧ kept ∈ dedupeList l ∧
      mkey kept = mkey m ∧
      markerCompleteness m ≤ markerCompleteness kept) := by
  refine ⟨removeDuplicates_idem r, dedupeList_eq_spec l, ?_⟩
  obtain ⟨kept, hkept⟩ := keptFor_isSome_of_mem l m hm
  refine ⟨kept, hkept, ?_, (keptFor_spec l _ _ hkept).2, ?_⟩
  · rw [dedupeList_eq_spec]
    exact List.mem_filterMap.mpr
      ⟨mkey m, (mem_distinctKeys l _).mpr ⟨m, hm, rfl⟩, hkept⟩
  · have hgm : m ∈ groupOf l (mkey m) := (mem_groupOf _ _ _).mpr ⟨hm, rfl⟩
    unfold keptFor at hkept
    cases hg : groupOf l (mkey m) with
    | nil => rw [hg] at hgm; exact absurd hgm (List.not_mem_nil m)
    | cons g0 gt =>
        rw [hg] at hkept hgm
        injection hkept with hv
        subst hv
        exact completeness_le_foldl gt g0 m hgm

theorem claim_C8_dedup_idempotent_keeps_best_witness :
    removeDuplicates (removeDuplicates initializeResultStructure) =
      removeDuplicates initializeResultStructure ∧
    dedupeList [sampleDict] = dedupeSpec [sampleDict] ∧
    (∃ kept, keptFor [sampleDict] (mkey sampleDict) = some kept ∧
      kept ∈ dedupeList [sampleDict] ∧ mkey kept = mkey sampleDict ∧
      markerCompleteness sampleDict ≤ markerCompleteness kept) :=
  claim_C8_dedup_idempotent_keeps_best initializeResultStructure
    [sampleDict] sampleDict (List.mem_cons_self _ _)

end MedParser
